import Mathlib

/-!
Verification of the git-review tool (src/git_review.py, with the legacy
variant src/git-review.py modelled where the two differ).

The tool is a thin orchestrator around two external collaborators: the git
binary (invoked as a subprocess) and the GitHub HTTP API.  The embedding makes
those collaborators explicit:

* every subprocess invocation or HTTP call the tool issues becomes a `Call`
  value in an emitted trace, in the order the Python code issues them;
* every output the tool reads back (the one-line log text, a commit message
  body returned by the show subcommand, the owner/repository pair parsed from
  the remote fetch URL, the open-pull-request list, the configuration store)
  is a parameter of the corresponding Lean function.

Pure helpers (the trailer codec, the one-line log parser, the correlation
dictionary) are translated line by line from the Python source.
-/

namespace GitReview

/-- Constant from src/git_review.py line 22: the git config section name. -/
def GIT_CONFIG_SECTION : String := "review"

/-- Constant from src/git_review.py line 23: default integration branch. -/
def DEFAULT_MAIN : String := "main"

/-- Constant from src/git_review.py line 24: default remote name. -/
def DEFAULT_ORIGIN : String := "origin"

/-- Constant from src/git_review.py line 25: the commit-message trailer key. -/
def META_VAR : String := "PR_BRANCH"

/-- Constant from src/git_review.py line 27: the draft ("work in progress") tag. -/
def WIP_TAG : String := "wip"

/-- Config dataclass (src/git_review.py lines 149-157). -/
structure Config where
  branch : String
  main : String
  origin : String
  user : String
  api_token : String
deriving DecidableEq

/-- Log entry (src/git_review.py lines 295-303).  `branch` is the decoded
review-branch name (`None` when the commit carries no trailer); `pull_request`
is `None` until the remote reconciler fills it in. -/
structure Entry where
  commit : String
  branch : Option String
  issue : String
  message : String
  pull_request : Option String
deriving DecidableEq

/-- Payload of the pull-request creation POST (src/git_review.py lines
400-407).  The JSON serialisation is elided; the four fields are kept. -/
structure PRPayload where
  title : String
  body : String
  head : Option String
  base : String
deriving DecidableEq

/-- One external call issued by the tool: a git subprocess invocation (with
the optional fallback `default` argument of the `git` wrapper, src/git_review.py
line 90), a GitHub GET, or a GitHub POST. -/
inductive Call where
  | git (cmdline : String) (fallback : Option String)
  | githubGet (path : String)
  | githubPost (path : String) (payload : PRPayload)
deriving DecidableEq

/-! ### Line splitting

Python's `str.split('\n')`, used by every `extract` helper in the source.
`"a\nb".split('\n') = ["a","b"]`, `"".split('\n') = [""]`, a trailing newline
yields a trailing empty line. -/

/-- Splitting a character list at newline characters, mirroring Python's
`split('\n')`: the result is always non-empty and the separators are dropped. -/
def splitLines : List Char → List (List Char)
  | [] => [[]]
  | c :: cs =>
    if c = '\n' then [] :: splitLines cs
    else
      match splitLines cs with
      | l :: ls => (c :: l) :: ls
      | [] => [[c]]

theorem splitLines_ne_nil (cs : List Char) : splitLines cs ≠ [] := by
  induction cs with
  | nil => simp [splitLines]
  | cons c cs ih =>
    simp only [splitLines]
    split
    · simp
    · match h : splitLines cs with
      | [] => simp
      | l :: ls => simp

theorem splitLines_of_not_mem (cs : List Char) (h : '\n' ∉ cs) :
    splitLines cs = [cs] := by
  induction cs with
  | nil => rfl
  | cons c cs ih =>
    simp only [List.mem_cons, not_or] at h
    simp only [splitLines]
    rw [if_neg (fun hc => h.1 hc.symm), ih h.2]

theorem splitLines_append (l r : List Char) (h : '\n' ∉ l) :
    splitLines (l ++ '\n' :: r) = l :: splitLines r := by
  induction l with
  | nil => simp [splitLines]
  | cons c cs ih =>
    simp only [List.mem_cons, not_or] at h
    simp only [List.cons_append, splitLines]
    rw [if_neg (fun hc => h.1 hc.symm)]
    show (match splitLines (cs ++ '\n' :: r) with
          | l :: ls => (c :: l) :: ls
          | [] => [[c]]) = (c :: cs) :: splitLines r
    rw [ih h.2]

/-! ### Metadata codec

src/git_review.py line 288: `metaVarPattern = re.compile(f"^{META_VAR}=(.*)$")`.
A line of a message (newline-free, since the message was split at newlines)
matches iff it starts with the literal `PR_BRANCH=`; group 1 is the rest of
the line. -/

/-- Characters of the literal trailer key `PR_BRANCH=` that `metaVarPattern`
anchors at the start of a line. -/
def metaKey : List Char := (META_VAR ++ "=").toList

/-- Matching one message line against `metaVarPattern` (anchored prefix match;
the returned value is capture group 1, the remainder of the line). -/
def matchMetaVar (line : List Char) : Option (List Char) :=
  if metaKey.isPrefixOf line then some (line.drop metaKey.length) else none

/-- The pure core of `review_branch` (src/git_review.py lines 306-315): the
`extract` closure scans the lines of the commit message (the output of
`git show -s --format=%B`) and returns the first `metaVarPattern` match, or
`None` when no line matches. -/
def review_branch_of_message (message : String) : Option String :=
  ((splitLines message.toList).findSome? matchMetaVar).map List.asString

/-- Commit message produced by `new_command` (src/git_review.py lines
277-280): draft-tagged subject, blank line, trailer line, trailing newline. -/
def newCommitMessage (issue message tag : String) : String :=
  WIP_TAG ++ ": " ++ issue ++ ": " ++ message ++ "\n\n" ++
    META_VAR ++ "=" ++ issue ++ "-" ++ tag ++ "\n"

/-- The review-branch name `new_command` derives and embeds in the trailer
(src/git_review.py line 279). -/
def reviewBranchName (issue tag : String) : String := issue ++ "-" ++ tag

/-! ### Helper lemmas about first-match scanning -/

theorem findSome?_eq_none_iff {α β : Type} (f : α → Option β) (l : List α) :
    l.findSome? f = none ↔ ∀ x ∈ l, f x = none := by
  induction l with
  | nil => simp [List.findSome?]
  | cons a l ih =>
    simp only [List.findSome?]
    cases h : f a with
    | none => simp only [h]; rw [ih, List.forall_mem_cons]; simp [h]
    | some b => simp [h]

theorem findSome?_first {α β : Type} (f : α → Option β) (pre : List α) (x : α)
    (post : List α) (v : β) (hpre : ∀ p ∈ pre, f p = none) (hx : f x = some v) :
    (pre ++ x :: post).findSome? f = some v := by
  induction pre with
  | nil => simp [List.findSome?, hx]
  | cons a pre ih =>
    have ha : f a = none := hpre a (by simp)
    simp only [List.cons_append, List.findSome?, ha]
    exact ih (fun p hp => hpre p (by simp [hp]))

theorem matchMetaVar_eq_none_iff (line : List Char) :
    matchMetaVar line = none ↔ metaKey.isPrefixOf line = false := by
  unfold matchMetaVar
  cases h : metaKey.isPrefixOf line <;> simp [h]

theorem matchMetaVar_head_ne (c : Char) (l : List Char) (hc : c ≠ 'P') :
    matchMetaVar (c :: l) = none := by
  unfold matchMetaVar
  have hk : metaKey = 'P' :: "R_BRANCH=".toList := by decide
  rw [hk]
  have h2 : ('P' :: "R_BRANCH=".toList).isPrefixOf (c :: l) = false := by
    simp only [List.isPrefixOf]
    simp [Ne.symm hc]
  simp only [h2, Bool.false_eq_true, if_false]

theorem matchMetaVar_key_append (v : List Char) :
    matchMetaVar (metaKey ++ v) = some v := by
  unfold matchMetaVar
  have h1 : metaKey.isPrefixOf (metaKey ++ v) = true := by
    rw [List.isPrefixOf_iff_prefix]
    exact List.prefix_append _ _
  simp [h1]

/-- Claim C7: the decoder returns absent exactly when no line of the commit
message begins with the literal trailer key `PR_BRANCH=`, and otherwise
returns the value of the first such trailer line, whatever unrelated lines
precede or follow it. -/
theorem decode_trailer_spec (message : String) :
    (review_branch_of_message message = none ↔
      ∀ line ∈ splitLines message.toList, metaKey.isPrefixOf line = false) ∧
    (∀ pre line post,
      splitLines message.toList = pre ++ line :: post →
      (∀ p ∈ pre, metaKey.isPrefixOf p = false) →
      metaKey.isPrefixOf line = true →
      review_branch_of_message message =
        some ((line.drop metaKey.length).asString)) := by
  constructor
  · unfold review_branch_of_message
    rw [Option.map_eq_none', findSome?_eq_none_iff]
    constructor
    · intro h line hline
      exact (matchMetaVar_eq_none_iff line).mp (h line hline)
    · intro h line hline
      exact (matchMetaVar_eq_none_iff line).mpr (h line hline)
  · intro pre line post hsp hpre hline
    unfold review_branch_of_message
    rw [hsp, findSome?_first matchMetaVar pre line post (line.drop metaKey.length)
      (fun p hp => (matchMetaVar_eq_none_iff p).mpr (hpre p hp))
      (by unfold matchMetaVar; simp [hline])]
    rfl

/-- Witness for C7 on a concrete message: free text and a `KEY=value`-looking
line before the trailer, another line after it. -/
theorem decode_trailer_spec_witness :
    review_branch_of_message "free text\nKEY=value\nPR_BRANCH=b2\ntail" = some "b2" := by
  have h := (decode_trailer_spec "free text\nKEY=value\nPR_BRANCH=b2\ntail").2
    ["free text".toList, "KEY=value".toList] "PR_BRANCH=b2".toList ["tail".toList]
    (by decide) (by decide) (by decide)
  exact h.trans (by decide)

/-! ### Claim C2: encode/decode round trip -/

/-- Claim C2 (amended): for every issue identifier, message and tag containing
no newline character, encoding a commit message with the `new` command and
decoding it recovers exactly the derived review-branch name
`issue ++ "-" ++ tag`. -/
theorem new_decode_roundtrip (issue message tag : String)
    (h1 : '\n' ∉ issue.toList) (h2 : '\n' ∉ message.toList)
    (h3 : '\n' ∉ tag.toList) :
    review_branch_of_message (newCommitMessage issue message tag) =
      some (reviewBranchName issue tag) := by
  have hdata : (newCommitMessage issue message tag).toList =
      ('w' :: 'i' :: 'p' :: ':' :: ' ' ::
        (issue.toList ++ ':' :: ' ' :: message.toList)) ++
        '\n' :: ('\n' ::
          ((metaKey ++ (reviewBranchName issue tag).toList) ++ '\n' :: [])) := by
    simp [newCommitMessage, reviewBranchName, metaKey, WIP_TAG, META_VAR]
  have hS : '\n' ∉ ('w' :: 'i' :: 'p' :: ':' :: ' ' ::
      (issue.toList ++ ':' :: ' ' :: message.toList)) := by
    simp only [List.mem_cons, List.mem_append, not_or]
    refine ⟨by decide, by decide, by decide, by decide, by decide, h1, by decide,
      by decide, h2⟩
  have hT : '\n' ∉ metaKey ++ (reviewBranchName issue tag).toList := by
    simp only [List.mem_append, not_or]
    constructor
    · decide
    · simp only [reviewBranchName]
      rw [show (issue ++ "-" ++ tag).toList = issue.toList ++ "-".toList ++ tag.toList
        from rfl]
      simp only [List.mem_append, not_or]
      exact ⟨⟨h1, by decide⟩, h3⟩
  unfold review_branch_of_message
  rw [hdata, splitLines_append _ _ hS]
  rw [show splitLines ('\n' ::
      ((metaKey ++ (reviewBranchName issue tag).toList) ++ '\n' :: [])) =
      [] :: splitLines ((metaKey ++ (reviewBranchName issue tag).toList) ++ '\n' :: [])
    from by simp [splitLines]]
  rw [splitLines_append _ _ hT]
  have hhead : matchMetaVar ('w' :: 'i' :: 'p' :: ':' :: ' ' ::
      (issue.toList ++ ':' :: ' ' :: message.toList)) = none :=
    matchMetaVar_head_ne 'w' _ (by decide)
  have hnil : matchMetaVar ([] : List Char) = none := by decide
  simp only [List.findSome?, hhead, hnil, matchMetaVar_key_append]
  simp only [Option.map_some']
  exact congrArg some (String.asString_toList _)

/-- Witness for the amended C2 round trip at a concrete issue, message and
random tag. -/
theorem new_decode_roundtrip_witness :
    review_branch_of_message (newCommitMessage "7" "fix y" "abcd1234") =
      some (reviewBranchName "7" "abcd1234") :=
  new_decode_roundtrip "7" "fix y" "abcd1234" (by decide) (by decide) (by decide)

/-- Counterexample to C2 as stated: with a message containing a newline
followed by a `PR_BRANCH=` line, the decoder returns the injected value, not
the derived review-branch name, because the injected line precedes the real
trailer in the line scan. -/
theorem new_decode_roundtrip_cex :
    review_branch_of_message (newCommitMessage "7" ("x\nPR_BRANCH=evil") "abcd1234") ≠
      some (reviewBranchName "7" "abcd1234") ∧
    review_branch_of_message (newCommitMessage "7" ("x\nPR_BRANCH=evil") "abcd1234") =
      some "evil" := by
  constructor
  · decide
  · decide

/-! ### Stack lister

src/git_review.py line 290:
`onelinePattern = re.compile(r"^([^\s]*)\s([0-9]+):\s(.*)$")`; the legacy
variant src/git-review.py line 257 uses `^([^\s]*)\s(.*)$`.  The functions
below replay the regex-engine semantics on a newline-free line: the leading
`[^\s]*` group is the maximal run of non-whitespace characters (backtracking
cannot shorten it, because the following `\s` only matches a whitespace
character), and `[0-9]+` is the maximal run of ASCII digits (backtracking
cannot shorten it, because the following character must be a colon). -/

/-- The ASCII part of the regex whitespace class `\s`. -/
def pySpace (c : Char) : Bool :=
  c = ' ' || c = '\t' || c = '\n' || c = '\r' || c = '\x0b' || c = '\x0c'

/-- Matching one log line against `onelinePattern` of src/git_review.py:
returns the three capture groups (hash, issue number, message) or `none`. -/
def onelineMatch (line : List Char) : Option (String × String × String) :=
  let hash := line.takeWhile (fun c => !pySpace c)
  match line.dropWhile (fun c => !pySpace c) with
  | [] => none
  | _ :: rest1 =>
    let digits := rest1.takeWhile Char.isDigit
    match rest1.dropWhile Char.isDigit with
    | ':' :: w :: rest3 =>
      if digits.isEmpty || !pySpace w then none
      else some (hash.asString, digits.asString, rest3.asString)
    | _ => none

/-- Matching one log line against the legacy `onelinePattern` of
src/git-review.py (`^([^\s]*)\s(.*)$`): hash and rest-of-line. -/
def onelineMatchLegacy (line : List Char) : Option (String × String) :=
  let hash := line.takeWhile (fun c => !pySpace c)
  match line.dropWhile (fun c => !pySpace c) with
  | [] => none
  | _ :: rest => some (hash.asString, rest.asString)

/-- Loop body of the `extract` closure in `listing` (src/git_review.py lines
321-333): empty lines are skipped, the first non-matching line aborts the
command with an internal error (modelled as `Except.error` carrying the
message written to stderr), matching lines yield their capture groups in
order. -/
def listingExtractGo : List (List Char) → Except String (List (String × String × String))
  | [] => .ok []
  | line :: rest =>
    if line.isEmpty then listingExtractGo rest
    else
      match onelineMatch line with
      | none => .error ("internal error: failed to parse --oneline representation \"" ++
          line.asString ++ "\"")
      | some t => (listingExtractGo rest).map (t :: ·)

/-- The `extract` closure of `listing` applied to the stripped output of
`git log --oneline main..branch`. -/
def listingExtract (output : String) : Except String (List (String × String × String)) :=
  listingExtractGo (splitLines output.toList)

/-- The `listing` function (src/git_review.py lines 318-341), with the
one-line log text and the per-commit message bodies (the outputs of the two
git subprocesses it reads) passed in explicitly: each parsed log line becomes
an `Entry` whose branch is decoded from the commit's full message and whose
pull-request field starts out unset. -/
def listing (show_message : String → String) (logOutput : String) :
    Except String (List Entry) :=
  (listingExtract logOutput).map
    (List.map fun t =>
      ⟨t.1, review_branch_of_message (show_message t.1), t.2.1, t.2.2, none⟩)

/-- Claim C9: an empty commit range (empty one-line log output) yields an
empty entry list, not an error. -/
theorem listing_empty_range (show_message : String → String) :
    listing show_message "" = .ok [] := rfl

/-- Claim C5 (code bug): the one-line log line of a commit created by the
tool's own `new` command (subject `wip: 7: fix x`) consists of a hash,
whitespace and rest text, is accepted by the legacy variant's pattern
`^([^\s]*)\s(.*)$`, but is rejected by src/git_review.py's pattern
`^([^\s]*)\s([0-9]+):\s(.*)$`, so `listing` aborts with the internal parse
error. -/
theorem oneline_wip_line_parse_bug :
    listingExtract "abc1234 wip: 7: fix x" =
      .error ("internal error: failed to parse --oneline representation \"" ++
        "abc1234 wip: 7: fix x" ++ "\"") ∧
    onelineMatchLegacy ("abc1234 wip: 7: fix x").toList =
      some ("abc1234", "wip: 7: fix x") ∧
    listingExtract "abc1234 7: fix x" = .ok [("abc1234", "7", "fix x")] := by
  refine ⟨rfl, by decide, rfl⟩

/-! ### One-line log lines built from commits, and the listing order -/

theorem takeWhile_append_cons {α : Type} (p : α → Bool) (l1 : List α) (a : α)
    (l2 : List α) (h1 : ∀ x ∈ l1, p x = true) (ha : p a = false) :
    (l1 ++ a :: l2).takeWhile p = l1 := by
  induction l1 with
  | nil => simp [List.takeWhile_cons, ha]
  | cons b l1 ih =>
    have hb := h1 b (by simp)
    simp [List.takeWhile_cons, hb, ih (fun x hx => h1 x (by simp [hx]))]

theorem dropWhile_append_cons {α : Type} (p : α → Bool) (l1 : List α) (a : α)
    (l2 : List α) (h1 : ∀ x ∈ l1, p x = true) (ha : p a = false) :
    (l1 ++ a :: l2).dropWhile p = a :: l2 := by
  induction l1 with
  | nil => simp [List.dropWhile_cons, ha]
  | cons b l1 ih =>
    have hb := h1 b (by simp)
    simp [List.dropWhile_cons, hb, ih (fun x hx => h1 x (by simp [hx]))]

/-- Behaviour of `onelinePattern` on a well-shaped line
`hash ++ ' ' ++ digits ++ ": " ++ rest`: the three capture groups come back
exactly. -/
theorem onelineMatch_spec (h i m : List Char)
    (hh : ∀ c ∈ h, pySpace c = false)
    (hi0 : i ≠ []) (hi : ∀ c ∈ i, c.isDigit = true) :
    onelineMatch (h ++ ' ' :: (i ++ ':' :: ' ' :: m)) =
      some (h.asString, i.asString, m.asString) := by
  have t1 : (h ++ ' ' :: (i ++ ':' :: ' ' :: m)).takeWhile (fun c => !pySpace c) = h :=
    takeWhile_append_cons _ _ _ _ (fun x hx => by simp [hh x hx]) (by decide)
  have t2 : (h ++ ' ' :: (i ++ ':' :: ' ' :: m)).dropWhile (fun c => !pySpace c) =
      ' ' :: (i ++ ':' :: ' ' :: m) :=
    dropWhile_append_cons _ _ _ _ (fun x hx => by simp [hh x hx]) (by decide)
  have t3 : (i ++ ':' :: ' ' :: m).takeWhile Char.isDigit = i :=
    takeWhile_append_cons _ _ _ _ hi (by decide)
  have t4 : (i ++ ':' :: ' ' :: m).dropWhile Char.isDigit = ':' :: ' ' :: m :=
    dropWhile_append_cons _ _ _ _ hi (by decide)
  unfold onelineMatch
  simp only [t1, t2, t3, t4]
  have hie : i.isEmpty = false := by
    cases i with
    | nil => cases hi0 rfl
    | cons a l => rfl
  simp [hie, pySpace]

/-- String-level normal form of a one-line log line `hash issue: message`. -/
theorem oneline_toList (h i m : String) :
    (h ++ " " ++ (i ++ ": " ++ m)).toList =
      h.toList ++ ' ' :: (i.toList ++ ':' :: ' ' :: m.toList) := by
  have e : ∀ s t : String, (s ++ t).toList = s.toList ++ t.toList := fun _ _ => rfl
  have e1 : (" " : String).toList = [' '] := rfl
  have e2 : (": " : String).toList = [':', ' '] := rfl
  simp [e, e1, e2]

/-- The `extract` loop of `listing` on a list of well-shaped lines: every line
parses and the triples come back in line order. -/
theorem listingExtractGo_map (ds : List (String × String × String))
    (hds : ∀ c ∈ ds, (∀ ch ∈ c.1.toList, pySpace ch = false) ∧
      c.2.1.toList ≠ [] ∧ (∀ ch ∈ c.2.1.toList, ch.isDigit = true)) :
    listingExtractGo (ds.map (fun c =>
        c.1.toList ++ ' ' :: (c.2.1.toList ++ ':' :: ' ' :: c.2.2.toList))) =
      .ok ds := by
  induction ds with
  | nil => rfl
  | cons c ds ih =>
    obtain ⟨hc1, hc2, hc3⟩ := hds c (by simp)
    have hm := onelineMatch_spec c.1.toList c.2.1.toList c.2.2.toList hc1 hc2 hc3
    have hne : (c.1.toList ++ ' ' :: (c.2.1.toList ++ ':' :: ' ' :: c.2.2.toList)).isEmpty
        = false := by
      cases hl : c.1.toList with
      | nil => rfl
      | cons a l => rfl
    simp only [List.map_cons, listingExtractGo, hne, Bool.false_eq_true, if_false, hm]
    rw [ih (fun x hx => hds x (by simp [hx]))]
    show Except.ok ((c.1.toList.asString, c.2.1.toList.asString, c.2.2.toList.asString) :: ds)
      = Except.ok (c :: ds)
    rw [String.asString_toList, String.asString_toList, String.asString_toList]

/-- Joining lines with newline separators (the inverse of `splitLines` on
newline-free lines). -/
def joinNL : List (List Char) → List Char
  | [] => []
  | [l] => l
  | l :: ls => l ++ '\n' :: joinNL ls

theorem splitLines_joinNL (lines : List (List Char))
    (h : ∀ l ∈ lines, '\n' ∉ l) (hne : lines ≠ []) :
    splitLines (joinNL lines) = lines := by
  induction lines with
  | nil => cases hne rfl
  | cons l ls ih =>
    cases ls with
    | nil => simp [joinNL, splitLines_of_not_mem l (h l (by simp))]
    | cons l2 ls2 =>
      rw [show joinNL (l :: l2 :: ls2) = l ++ '\n' :: joinNL (l2 :: ls2) from rfl]
      rw [splitLines_append _ _ (h l (by simp))]
      rw [ih (fun x hx => h x (by simp [hx])) (by simp)]

/-- The external version-control collaborator's one-line log: given the stack
commits in chronological order (oldest first), `git log` emits one
`hash subject` line per commit in reverse chronological order (newest first),
which is the documented default ordering of the log subcommand. -/
def gitLogOneline (commits : List (String × String)) : String :=
  (joinNL ((commits.map (fun c => (c.1 ++ " " ++ c.2).toList)).reverse)).asString

/-- Display step of `log_command` (src/git_review.py lines 374-387): one row
per entry, and the row list is reversed before tabulation. -/
def log_rows (entries : List Entry) :
    List (String × Option String × String × String) :=
  (entries.map (fun e => (e.commit, e.branch, e.issue, e.message))).reverse

/-- Claim C4 (amended): for every non-empty chronologically ordered
(oldest-first) commit list with well-shaped hashes and subjects, `list`
returns the stack entries in the order of the one-line log output — newest
commit first — and the display step's reversal of that list yields
oldest-commit-first output (the newest commit last). -/
theorem listing_order (show_message : String → String)
    (cs : List (String × String × String)) (hne : cs ≠ [])
    (hshape : ∀ c ∈ cs, (∀ ch ∈ c.1.toList, pySpace ch = false) ∧
      c.2.1.toList ≠ [] ∧ (∀ ch ∈ c.2.1.toList, ch.isDigit = true) ∧
      '\n' ∉ c.2.2.toList) :
    listing show_message
        (gitLogOneline (cs.map (fun c => (c.1, c.2.1 ++ ": " ++ c.2.2)))) =
      .ok (cs.reverse.map (fun c =>
        Entry.mk c.1 (review_branch_of_message (show_message c.1)) c.2.1 c.2.2 none)) ∧
    log_rows (cs.reverse.map (fun c =>
        Entry.mk c.1 (review_branch_of_message (show_message c.1)) c.2.1 c.2.2 none)) =
      cs.map (fun c =>
        (c.1, review_branch_of_message (show_message c.1), c.2.1, c.2.2)) := by
  constructor
  · have hmaps : (cs.map (fun c => (c.1, c.2.1 ++ ": " ++ c.2.2))).map
        (fun c => (c.1 ++ " " ++ c.2).toList) =
        cs.map (fun c =>
          c.1.toList ++ ' ' :: (c.2.1.toList ++ ':' :: ' ' :: c.2.2.toList)) := by
      rw [List.map_map]
      refine List.map_congr_left (fun c _ => ?_)
      exact oneline_toList c.1 c.2.1 c.2.2
    have hnolf : ∀ l ∈ (cs.map (fun c =>
        c.1.toList ++ ' ' :: (c.2.1.toList ++ ':' :: ' ' :: c.2.2.toList))).reverse,
        '\n' ∉ l := by
      intro l hl
      rw [List.mem_reverse, List.mem_map] at hl
      obtain ⟨c, hc, rfl⟩ := hl
      obtain ⟨h1, _, h3, h4⟩ := hshape c hc
      simp only [List.mem_append, List.mem_cons, not_or]
      refine ⟨fun hch => ?_, by decide, fun hch => ?_, by decide, by decide, h4⟩
      · have := h1 '\n' hch
        simp [pySpace] at this
      · have := h3 '\n' hch
        simp at this
    unfold listing listingExtract gitLogOneline
    rw [hmaps,
      show ∀ l : List Char, l.asString.toList = l from fun _ => rfl,
      splitLines_joinNL _ hnolf (by simpa using hne), ← List.map_reverse,
      listingExtractGo_map cs.reverse
        (fun c hc => by
          obtain ⟨h1, h2, h3, _⟩ := hshape c (List.mem_reverse.mp hc)
          exact ⟨h1, h2, h3⟩)]
    rfl
  · simp only [log_rows, List.map_reverse, List.map_map, List.reverse_reverse]
    rfl

/-- Witness for the amended C4 at two concrete commits, `h1` older, `h2`
newer: the listing is newest-first and the display rows are oldest-first. -/
theorem listing_order_witness :
    listing (fun _ => "") (gitLogOneline [("h1", "1" ++ ": " ++ "a"), ("h2", "2" ++ ": " ++ "b")]) =
      .ok [⟨"h2", review_branch_of_message "", "2", "b", none⟩,
           ⟨"h1", review_branch_of_message "", "1", "a", none⟩] ∧
    log_rows [⟨"h2", review_branch_of_message "", "2", "b", none⟩,
              ⟨"h1", review_branch_of_message "", "1", "a", none⟩] =
      [("h1", review_branch_of_message "", "1", "a"),
       ("h2", review_branch_of_message "", "2", "b")] :=
  listing_order (fun _ => "") [("h1", "1", "a"), ("h2", "2", "b")] (by decide)
    (by decide)

/-- Counterexample to C4 as stated: the chronological order of the stack is
`h1` (older) then `h2` (newer); the underlying tool's one-line log lists the
newest commit first, so `list` returns the `h2` entry first — not oldest-first
— and the display reversal puts the oldest commit `h1` first — not
newest-first. -/
theorem listing_order_cex :
    listing (fun _ => "") (gitLogOneline [("h1", "1: a"), ("h2", "2: b")]) =
      .ok [⟨"h2", none, "2", "b", none⟩, ⟨"h1", none, "1", "a", none⟩] ∧
    log_rows [⟨"h2", none, "2", "b", none⟩, ⟨"h1", none, "1", "a", none⟩] =
      [("h1", none, "1", "a"), ("h2", none, "2", "b")] ∧
    ("h1" : String) ≠ "h2" :=
  ⟨rfl, rfl, by decide⟩

/-! ### Export orchestrator (src/git_review.py lines 395-444)

The owner/repository pair `org` (the value `remote_origin` parses out of the
`git remote show -n origin` output) is a parameter; the subprocess call that
obtains it still appears in the emitted trace where the Python code issues
it, inside `create_pull_request`. -/

/-- Messages `export` writes to stdout before returning or acting. -/
def skipNoBranchMsg (e : Entry) : String :=
  e.commit ++ ": \"" ++ e.message ++ "\"\n\tskipping, commit has no review branch\n"

/-- Skip message for a draft ("work in progress") entry. -/
def skipWipMsg (e : Entry) : String :=
  e.commit ++ ": \"" ++ e.message ++ "\"\n\tskipping, commit is work in progress\n"

/-- Progress message for an eligible entry. -/
def exportingMsg (e : Entry) : String :=
  e.commit ++ ": \"" ++ e.message ++ "\"\n\texporting...\n"

/-- Progress message before pull-request creation. -/
def creatingPrMsg : String := "\tcreating pull request...\n"

/-- The draft gate `entry.message.lower().startswith(WIP_TAG)` of `export`
(src/git_review.py line 420): the message is lowercased character by
character (the tag itself is ASCII) and compared against the tag as a
prefix. -/
def lowerStartsWithWip (message : String) : Bool :=
  WIP_TAG.toList.isPrefixOf (message.toList.map Char.toLower)

/-- The `create_pull_request` function (src/git_review.py lines 395-409): the
leading `assert entry.pull_request is None` is modelled as `Except.error`;
otherwise the function looks up the remote origin (one git call) and posts
the pull-request payload with title = entry message, body referencing the
issue when non-empty, head = entry branch, base = integration branch. -/
def create_pull_request (config : Config) (org : String × String) (entry : Entry) :
    Except String (List Call) :=
  if entry.pull_request = none then
    .ok [.git ("remote show -n " ++ config.origin) none,
         .githubPost ("repos/" ++ org.1 ++ "/" ++ org.2 ++ "/pulls")
           ⟨entry.message,
            if entry.issue ≠ "" then "Closes #" ++ entry.issue else "",
            entry.branch, config.main⟩]
  else .error "assertion failed: entry.pull_request is None"

/-- The `export` function (src/git_review.py lines 412-444): returns the
ordered trace of external calls it issues and the messages it writes to
stdout; `Except.error` marks the unreachable assertion failure inside
`create_pull_request`. -/
def exportEntry (config : Config) (org : String × String) (entry : Entry) :
    Except String (List Call × List String) :=
  match entry.branch with
  | none => .ok ([], [skipNoBranchMsg entry])
  | some branch =>
    if lowerStartsWithWip entry.message then
      .ok ([], [skipWipMsg entry])
    else
      let calls : List Call :=
        [.git ("branch -D " ++ branch) (some ""),
         .git ("checkout -b " ++ branch ++ " " ++ entry.commit) none,
         .git ("push --force --set-upstream " ++ config.origin ++ " " ++ branch) none,
         .git ("checkout " ++ config.branch) none,
         .git ("branch -D " ++ branch) none]
      if entry.pull_request = none then
        (create_pull_request config org entry).map
          (fun prCalls => (calls ++ prCalls, [exportingMsg entry, creatingPrMsg]))
      else
        .ok (calls, [exportingMsg entry])

/-- Claim C1: for every eligible entry (non-absent branch, non-draft subject)
export issues exactly the five branch-rewrite git calls in order — delete
with fallback, create at the entry's commit, force-push with upstream,
checkout of the configured working branch, delete — and afterwards, if and
only if the entry has no correlated pull request, the pull-request creation
call (origin lookup plus POST with head = the derived branch and base = the
integration branch). -/
theorem export_eligible_trace (config : Config) (org : String × String)
    (entry : Entry) (branch : String) (hb : entry.branch = some branch)
    (hw : lowerStartsWithWip entry.message = false) :
    exportEntry config org entry = .ok (
      [.git ("branch -D " ++ branch) (some ""),
       .git ("checkout -b " ++ branch ++ " " ++ entry.commit) none,
       .git ("push --force --set-upstream " ++ config.origin ++ " " ++ branch) none,
       .git ("checkout " ++ config.branch) none,
       .git ("branch -D " ++ branch) none] ++
      (if entry.pull_request = none then
        [.git ("remote show -n " ++ config.origin) none,
         .githubPost ("repos/" ++ org.1 ++ "/" ++ org.2 ++ "/pulls")
           ⟨entry.message,
            if entry.issue ≠ "" then "Closes #" ++ entry.issue else "",
            some branch, config.main⟩]
       else []),
      if entry.pull_request = none then [exportingMsg entry, creatingPrMsg]
      else [exportingMsg entry]) := by
  unfold exportEntry create_pull_request
  rw [hb]
  simp only [hw, Bool.false_eq_true, if_false]
  cases hpr : entry.pull_request with
  | none => simp [hpr, hb, Except.map]
  | some url => simp [hpr]

/-- Witness for C1: a concrete eligible entry with no correlated pull
request. -/
theorem export_eligible_trace_witness :
    exportEntry ⟨"work", "main", "origin", "u", "t"⟩ ("owner", "repo")
        ⟨"c2", some "B2", "2", "T-2: fix y", none⟩ = .ok (
      [.git ("branch -D " ++ "B2") (some ""),
       .git ("checkout -b " ++ "B2" ++ " " ++ "c2") none,
       .git ("push --force --set-upstream " ++ "origin" ++ " " ++ "B2") none,
       .git ("checkout " ++ "work") none,
       .git ("branch -D " ++ "B2") none] ++
      [.git ("remote show -n " ++ "origin") none,
       .githubPost ("repos/" ++ "owner" ++ "/" ++ "repo" ++ "/pulls")
         ⟨"T-2: fix y", "Closes #" ++ "2", some "B2", "main"⟩],
      [exportingMsg ⟨"c2", some "B2", "2", "T-2: fix y", none⟩, creatingPrMsg]) := by
  have h := export_eligible_trace ⟨"work", "main", "origin", "u", "t"⟩ ("owner", "repo")
    ⟨"c2", some "B2", "2", "T-2: fix y", none⟩ "B2" rfl (by decide)
  exact h

/-- Claim C3: an entry with no review-branch name, or with a draft-tagged
subject in any letter case, is reported as skipped with the corresponding
reason, and export issues no external call at all for it, so folding any
state-transition function over the issued trace leaves any state unchanged. -/
theorem export_skip_frame (config : Config) (org : String × String) (entry : Entry) :
    (entry.branch = none →
      exportEntry config org entry = .ok ([], [skipNoBranchMsg entry])) ∧
    (∀ b, entry.branch = some b → lowerStartsWithWip entry.message = true →
      exportEntry config org entry = .ok ([], [skipWipMsg entry])) ∧
    (∀ calls out, (entry.branch = none ∨
        lowerStartsWithWip entry.message = true) →
      exportEntry config org entry = .ok (calls, out) →
      calls = [] ∧ ∀ (σ : Type) (step : σ → Call → σ) (s : σ),
        calls.foldl step s = s) := by
  refine ⟨fun hb => by simp [exportEntry, hb], fun b hb hw => ?_, ?_⟩
  · unfold exportEntry
    rw [hb]
    simp [hw]
  · intro calls out hor hok
    have hcalls : calls = [] := by
      rcases hor with hb | hw
      · rw [show exportEntry config org entry = .ok ([], [skipNoBranchMsg entry])
          from by simp [exportEntry, hb]] at hok
        exact congrArg Prod.fst (Except.ok.inj hok).symm
      · unfold exportEntry at hok
        cases hb : entry.branch with
        | none =>
          rw [hb] at hok
          exact congrArg Prod.fst (Except.ok.inj hok).symm
        | some b =>
          rw [hb] at hok
          simp only [hw, if_true] at hok
          exact congrArg Prod.fst (Except.ok.inj hok).symm
    exact ⟨hcalls, fun σ step s => by rw [hcalls]; rfl⟩

/-- Witness for C3 at two concrete entries: one with no review branch, one
with a mixed-case draft tag; both are skipped with their reported reason and
an empty trace, which leaves any folded state unchanged. -/
theorem export_skip_frame_witness :
    exportEntry ⟨"work", "main", "origin", "u", "t"⟩ ("owner", "repo")
        ⟨"c1", none, "1", "T-1: fix x", none⟩ =
      .ok ([], [skipNoBranchMsg ⟨"c1", none, "1", "T-1: fix x", none⟩]) ∧
    exportEntry ⟨"work", "main", "origin", "u", "t"⟩ ("owner", "repo")
        ⟨"c1", some "B1", "1", "WiP: T-1: fix x", none⟩ =
      .ok ([], [skipWipMsg ⟨"c1", some "B1", "1", "WiP: T-1: fix x", none⟩]) ∧
    ([] : List Call).foldl (fun (n : Nat) _ => n + 1) 0 = 0 := by
  have h1 := (export_skip_frame ⟨"work", "main", "origin", "u", "t"⟩ ("owner", "repo")
    ⟨"c1", none, "1", "T-1: fix x", none⟩).1 rfl
  have h := export_skip_frame ⟨"work", "main", "origin", "u", "t"⟩ ("owner", "repo")
    ⟨"c1", some "B1", "1", "WiP: T-1: fix x", none⟩
  have h2 := h.2.1 "B1" rfl (by decide)
  have h3 := (h.2.2 [] [skipWipMsg ⟨"c1", some "B1", "1", "WiP: T-1: fix x", none⟩]
    (Or.inr (by decide)) h2).2
  exact ⟨h1, h2, h3 Nat (fun n _ => n + 1) 0⟩

/-- Claim C10: export never trips the assertion at the head of the
pull-request creation function — whenever it reaches that step the entry's
pull-request field is `None`, so the modelled export never returns the
assertion-failure error for any configuration, origin and entry. -/
theorem export_never_asserts (config : Config) (org : String × String)
    (entry : Entry) : ∃ r, exportEntry config org entry = .ok r := by
  unfold exportEntry
  cases hb : entry.branch with
  | none => exact ⟨_, rfl⟩
  | some b =>
    cases hw : lowerStartsWithWip entry.message with
    | true =>
      simp only [hw, if_true]
      exact ⟨_, rfl⟩
    | false =>
      simp only [hw, Bool.false_eq_true, if_false]
      cases hpr : entry.pull_request with
      | none =>
        simp only [hpr, if_true, create_pull_request]
        exact ⟨_, rfl⟩
      | some url => simp [hpr]

/-! ### Remote reconciler (src/git_review.py lines 358-371)

The open-pull-request list returned by the GitHub GET is passed in as
(label, url) pairs — `pr["head"]["label"]` and `pr["html_url"]` — and the
owner string as parsed by `remote_origin`. -/

/-- The dictionary built by the loop `as_dict[pr.head.label] = pr.html_url`
(src/git_review.py lines 364-366), modelled as a lookup function with
Python-dict assignment semantics: a later pair with the same label
overwrites an earlier one. -/
def as_dict (pull_requests : List (String × String)) : String → Option String :=
  pull_requests.foldl (fun d pr k => if k = pr.1 then some pr.2 else d k)
    (fun _ => none)

/-- Per-entry body of the reconciliation loop (src/git_review.py lines
368-370): entries without a branch are untouched; for the others the
pull-request field is assigned the dictionary lookup of
`owner ++ ":" ++ branch` (which is `None` when absent). -/
def augmented_entry (owner : String) (d : String → Option String) (e : Entry) :
    Entry :=
  match e.branch with
  | none => e
  | some b => { e with pull_request := d (owner ++ ":" ++ b) }

/-- The pure core of `augmented_listing` (src/git_review.py lines 358-371):
reconcile every listed entry against the open-pull-request map. -/
def augmented_listing (owner : String) (pull_requests : List (String × String))
    (entries : List Entry) : List Entry :=
  entries.map (augmented_entry owner (as_dict pull_requests))

theorem as_dict_concat (prs : List (String × String)) (pr : String × String)
    (k : String) :
    as_dict (prs ++ [pr]) k = if k = pr.1 then some pr.2 else as_dict prs k := by
  unfold as_dict
  rw [List.foldl_append]
  rfl

theorem as_dict_eq_none_iff (prs : List (String × String)) (k : String) :
    as_dict prs k = none ↔ ∀ pr ∈ prs, pr.1 ≠ k := by
  induction prs using List.reverseRecOn with
  | nil => simp [as_dict]
  | append_singleton prs pr ih =>
    rw [as_dict_concat]
    by_cases hk : k = pr.1
    · rw [if_pos hk]
      constructor
      · intro hcon
        exact absurd hcon (by simp)
      · intro hall
        exact absurd hk.symm (hall pr (by simp))
    · simp only [hk, if_false, ih]
      constructor
      · intro h q hq
        rcases List.mem_append.mp hq with hq | hq
        · exact h q hq
        · rw [List.mem_singleton.mp hq]
          exact fun he => hk he.symm
      · intro h q hq
        exact h q (List.mem_append.mpr (Or.inl hq))

theorem as_dict_some_mem (prs : List (String × String)) (k url : String)
    (h : as_dict prs k = some url) : (k, url) ∈ prs := by
  induction prs using List.reverseRecOn with
  | nil => simp [as_dict] at h
  | append_singleton prs pr ih =>
    rw [as_dict_concat] at h
    by_cases hk : k = pr.1
    · rw [if_pos hk] at h
      have : url = pr.2 := (Option.some.inj h).symm
      rw [List.mem_append, List.mem_singleton]
      right
      rw [hk, this]
    · rw [if_neg hk] at h
      exact List.mem_append.mpr (Or.inl (ih h))

/-- Claim C6: reconciliation builds the label-to-URL map of the open pull
requests and, for every entry with a non-absent branch name, assigns the
lookup of `owner:branchName` to the pull-request field — an actual open
pull request's URL when the label is mapped, unset (with no error) when the
lookup is absent — while entries whose branch is absent are returned
untouched; the listing is reconciled entrywise. -/
theorem reconcile_spec (owner : String) (prs : List (String × String))
    (e : Entry) (entries : List Entry) :
    (e.branch = none → augmented_entry owner (as_dict prs) e = e) ∧
    (∀ b, e.branch = some b →
      (augmented_entry owner (as_dict prs) e).pull_request =
        as_dict prs (owner ++ ":" ++ b) ∧
      (augmented_entry owner (as_dict prs) e).commit = e.commit ∧
      (augmented_entry owner (as_dict prs) e).branch = e.branch ∧
      (augmented_entry owner (as_dict prs) e).issue = e.issue ∧
      (augmented_entry owner (as_dict prs) e).message = e.message ∧
      ((∀ pr ∈ prs, pr.1 ≠ owner ++ ":" ++ b) →
        (augmented_entry owner (as_dict prs) e).pull_request = none) ∧
      (∀ url, as_dict prs (owner ++ ":" ++ b) = some url →
        (owner ++ ":" ++ b, url) ∈ prs)) ∧
    augmented_listing owner prs entries =
      entries.map (augmented_entry owner (as_dict prs)) := by
  refine ⟨fun hb => by simp [augmented_entry, hb], fun b hb => ?_, rfl⟩
  have he : augmented_entry owner (as_dict prs) e =
      { e with pull_request := as_dict prs (owner ++ ":" ++ b) } := by
    unfold augmented_entry
    rw [hb]
  refine ⟨by rw [he], by rw [he], by rw [he, hb], by rw [he], by rw [he], ?_, ?_⟩
  · intro habs
    rw [he]
    exact (as_dict_eq_none_iff prs (owner ++ ":" ++ b)).mpr habs
  · exact fun url hurl => as_dict_some_mem prs (owner ++ ":" ++ b) url hurl

/-- Witness for C6, the spec's concrete scenario: the map built from one
open pull request labelled `owner:B2` attaches its URL to the entry with
branch `B2`, and an entry without a branch is untouched. -/
theorem reconcile_spec_witness :
    (augmented_entry "owner" (as_dict [("owner:B2", "https://x/2")])
        ⟨"c2", some "B2", "2", "T-2: fix y", none⟩).pull_request =
      some "https://x/2" ∧
    augmented_entry "owner" (as_dict [("owner:B2", "https://x/2")])
        ⟨"c1", none, "1", "T-1: fix x", none⟩ =
      ⟨"c1", none, "1", "T-1: fix x", none⟩ := by
  have h2 := ((reconcile_spec "owner" [("owner:B2", "https://x/2")]
    ⟨"c2", some "B2", "2", "T-2: fix y", none⟩ []).2.1 "B2" rfl).1
  have h1 := (reconcile_spec "owner" [("owner:B2", "https://x/2")]
    ⟨"c1", none, "1", "T-1: fix x", none⟩ []).1 rfl
  exact ⟨h2.trans (by decide), h1⟩

/-! ### Configuration loading (src/git_review.py lines 141-197)

The local git configuration store is a partial map from key to value;
`load_config key default` issues one `git config --local --get review.key`
subprocess call and falls back to the default when the call fails. -/

/-- One configuration lookup: the issued call and the resolved value. -/
def load_config (store : String → Option String) (key dflt : String) :
    Call × String :=
  (Call.git ("config --local --get " ++ GIT_CONFIG_SECTION ++ "." ++ key)
    (some dflt), (store key).getD dflt)

/-- The `load_all_config` function (src/git_review.py lines 160-197):
checks `branch`, then `api-token`, then `user`, exiting with code 1 (the
`Except.error`) at the first empty value; otherwise also reads `main` and
`origin` with their defaults and returns the `Config`.  The first component
is the trace of subprocess calls performed up to that point. -/
def load_all_config (store : String → Option String) :
    List Call × Except Nat Config :=
  let b := load_config store "branch" ""
  if b.2 = "" then ([b.1], .error 1) else
  let t := load_config store "api-token" ""
  if t.2 = "" then ([b.1, t.1], .error 1) else
  let u := load_config store "user" ""
  if u.2 = "" then ([b.1, t.1, u.1], .error 1) else
  let m := load_config store "main" DEFAULT_MAIN
  let o := load_config store "origin" DEFAULT_ORIGIN
  ([b.1, t.1, u.1, m.1, o.1], .ok ⟨b.2, m.2, o.2, u.2, t.2⟩)

/-- Proposition that a call is one of the configuration lookups. -/
def isConfigLookup (c : Call) : Prop :=
  ∃ key dflt, c = Call.git
    ("config --local --get " ++ GIT_CONFIG_SECTION ++ "." ++ key) (some dflt)

/-- Claim C8: whenever a required configuration key (working branch, API
user or API token) resolves to the empty value, configuration loading exits
with code 1, and every subprocess call it has performed is a configuration
lookup. -/
theorem load_all_config_missing_key (store : String → Option String)
    (h : (store "branch").getD "" = "" ∨ (store "api-token").getD "" = "" ∨
      (store "user").getD "" = "") :
    (load_all_config store).2 = .error 1 ∧
    ∀ c ∈ (load_all_config store).1, isConfigLookup c := by
  have hlookup : ∀ c ∈ (load_all_config store).1, isConfigLookup c := by
    intro c hc
    have hmem : c ∈ [(load_config store "branch" "").1,
        (load_config store "api-token" "").1, (load_config store "user" "").1,
        (load_config store "main" DEFAULT_MAIN).1,
        (load_config store "origin" DEFAULT_ORIGIN).1] := by
      by_cases hb : (store "branch").getD "" = ""
      · simp only [load_all_config, load_config, hb] at hc
        simp only [if_true, eq_self_iff_true, List.mem_singleton] at hc
        simp [load_config, hc]
      · by_cases ht : (store "api-token").getD "" = ""
        · simp only [load_all_config, load_config, hb, ht] at hc
          simp only [if_true, if_false, eq_self_iff_true, List.mem_cons,
            List.mem_singleton, List.not_mem_nil, or_false] at hc
          rcases hc with hc | hc <;> simp [load_config, hc]
        · by_cases hu : (store "user").getD "" = ""
          · simp only [load_all_config, load_config, hb, ht, hu] at hc
            simp only [if_true, if_false, eq_self_iff_true, List.mem_cons,
              List.mem_singleton, List.not_mem_nil, or_false] at hc
            rcases hc with hc | hc | hc <;> simp [load_config, hc]
          · simp only [load_all_config, load_config, hb, ht, hu] at hc
            simp only [if_false, List.mem_cons, List.mem_singleton,
              List.not_mem_nil, or_false] at hc
            rcases hc with hc | hc | hc | hc | hc <;> simp [load_config, hc]
    simp only [List.mem_cons, List.mem_singleton, List.not_mem_nil, or_false]
      at hmem
    rcases hmem with h1 | h1 | h1 | h1 | h1
    · exact ⟨"branch", "", by rw [h1]; rfl⟩
    · exact ⟨"api-token", "", by rw [h1]; rfl⟩
    · exact ⟨"user", "", by rw [h1]; rfl⟩
    · exact ⟨"main", DEFAULT_MAIN, by rw [h1]; rfl⟩
    · exact ⟨"origin", DEFAULT_ORIGIN, by rw [h1]; rfl⟩
  refine ⟨?_, hlookup⟩
  unfold load_all_config load_config
  by_cases hb : (store "branch").getD "" = ""
  · simp [hb]
  · simp only [hb, if_neg, if_false]
    by_cases ht : (store "api-token").getD "" = ""
    · simp [ht]
    · simp only [ht, if_neg, if_false]
      rcases h with h | h | h
      · exact absurd h hb
      · exact absurd h ht
      · simp [h]

/-- Witness for C8: an entirely empty configuration store exits with code 1
after only configuration lookups. -/
theorem load_all_config_missing_key_witness :
    (load_all_config (fun _ => none)).2 = .error 1 ∧
    ∀ c ∈ (load_all_config (fun _ => none)).1, isConfigLookup c :=
  load_all_config_missing_key (fun _ => none) (Or.inl rfl)

end GitReview
